import Mathlib

/-!
Verification of the flex-attention lowering (`torch/_inductor/kernel/flex_attention.py`)
against its natural-language specification.

The development shallowly embeds, in Lean, the pieces of the source the claims are
about:

* the forward Triton template's online-softmax loop (`flex_attention_template`),
  translated over an arbitrary linear ordered field with an abstract base-2
  exponential, so that the exact-arithmetic content of the algorithm can be proved;
* a second translation of the same loop over an IEEE-style value domain with
  `NaN`/`±inf`, used to settle the fully-masked-row claims;
* the FX subgraph traversal `build_subgraph_buffer` together with
  `index_to_other_buffers`;
* the launch-grid functions, the tile-configuration policy and the keyword
  arguments each lowering passes to the templates.
-/

namespace FlexAttn

/-! ### Launch planner (`flex_attention_grid`, `flex_attention_backward_grid`)

`triton.cdiv` is ceiling division on nonnegative integers. -/

/-- `triton.cdiv a b = ceil(a / b)`. -/
def tritonCdiv (a b : ℕ) : ℕ := (a + b - 1) / b

/-- `flex_attention_grid(batch_size, num_heads, num_queries, d_model, meta)`:
returns `(triton.cdiv(num_queries, BLOCK_M), batch_size * num_heads, 1)`. -/
def flex_attention_grid (batch_size num_heads num_queries _d_model BLOCK_M : ℕ) :
    ℕ × ℕ × ℕ :=
  (tritonCdiv num_queries BLOCK_M, batch_size * num_heads, 1)

/-- `flex_attention_backward_grid(batch_size, num_heads, num_queries, d_model,
num_key_value, meta)`: returns
`(cdiv(num_queries, BLOCK_M2) + cdiv(num_key_value, BLOCK_N1), 1, batch_size * num_heads)`. -/
def flex_attention_backward_grid
    (batch_size num_heads num_queries _d_model num_key_value BLOCK_M2 BLOCK_N1 : ℕ) :
    ℕ × ℕ × ℕ :=
  (tritonCdiv num_queries BLOCK_M2 + tritonCdiv num_key_value BLOCK_N1, 1,
    batch_size * num_heads)

/-- `NUM_KV_BLOCKS = KV_LEN // BLOCK_N1` in the backward template. -/
def numKVBlocks (KV_LEN BLOCK_N1 : ℕ) : ℕ := KV_LEN / BLOCK_N1

/-- Backward template dispatch: the branch `if pid >= NUM_KV_BLOCKS` runs the DQ
(query) phase; the `else` branch runs the DK/DV (key/value) phase. -/
def bwdRunsQueryPhase (pid KV_LEN BLOCK_N1 : ℕ) : Bool :=
  numKVBlocks KV_LEN BLOCK_N1 ≤ pid

/-! ### Tiling configuration policy and template keyword arguments -/

/-- Element datatypes distinguished by the configuration tables. -/
inductive DType where
  | float32
  | bfloat16
  | float16
  deriving DecidableEq, Repr

/-- A `(BLOCK1, BLOCK2, num_warps, num_stages)` quadruple as produced by the
configuration policy. -/
structure Cfg where
  b1 : ℕ
  b2 : ℕ
  warps : ℕ
  stages : ℕ
  deriving DecidableEq, Repr

/-- Python tuple comparison `capability >= (major, 0)`: lexicographic, hence true
exactly when the major component is at least `major` (minors are nonnegative). -/
def capAtLeast (cap : ℕ × ℕ) (major : ℕ) : Bool :=
  major ≤ cap.1

/-- `_h100_default_config` lookup table, keyed by `(dtype, head_dim)`. -/
def h100DefaultConfig : DType × ℕ → Option Cfg
  | (.float32, 64) => some ⟨128, 32, 4, 3⟩
  | (.float32, 128) => some ⟨32, 64, 4, 3⟩
  | (.float32, 256) => some ⟨32, 32, 4, 3⟩
  | (.bfloat16, 64) => some ⟨128, 64, 4, 3⟩
  | (.bfloat16, 128) => some ⟨64, 32, 4, 3⟩
  | (.bfloat16, 256) => some ⟨64, 32, 4, 3⟩
  | _ => none

/-- `_a100_default_config` lookup table, keyed by `(dtype, head_dim)`. -/
def a100DefaultConfig : DType × ℕ → Option Cfg
  | (.float32, 64) => some ⟨128, 32, 4, 3⟩
  | (.float32, 128) => some ⟨128, 32, 4, 3⟩
  | (.float32, 256) => some ⟨64, 16, 4, 3⟩
  | (.bfloat16, 64) => some ⟨128, 64, 4, 3⟩
  | (.bfloat16, 128) => some ⟨128, 32, 4, 3⟩
  | (.bfloat16, 256) => some ⟨32, 64, 4, 3⟩
  | _ => none

/-- `_get_default_config_fwd(query)`. -/
def getDefaultConfigFwd (cap : ℕ × ℕ) (dtype : DType) (headDim : ℕ) : Cfg :=
  if headDim ≤ 256 && capAtLeast cap 9 then
    (h100DefaultConfig (dtype, headDim)).getD
      (if dtype = .float32 then ⟨64, 64, 4, 3⟩ else ⟨128, 64, 4, 3⟩)
  else if headDim ≤ 256 && capAtLeast cap 8 then
    (a100DefaultConfig (dtype, headDim)).getD
      (if dtype = .float32 then ⟨64, 64, 4, 3⟩ else ⟨128, 64, 4, 3⟩)
  else
    if dtype = .float32 then ⟨32, 16, 4, 3⟩ else ⟨64, 32, 4, 3⟩

/-- `_get_default_config_bwd(query)`. -/
def getDefaultConfigBwd (cap : ℕ × ℕ) (dtype : DType) (headDim : ℕ) : Cfg :=
  if headDim ≤ 256 && capAtLeast cap 9 then
    (if dtype = .float32 then ⟨64, 64, 4, 1⟩ else ⟨128, 128, 4, 3⟩)
  else if headDim ≤ 256 && capAtLeast cap 8 then ⟨64, 64, 4, 1⟩
  else ⟨16, 16, 4, 1⟩

/-- The forward configuration list: the default configuration, plus five fixed
extra candidates when `config.max_autotune` is set. -/
def fwdConfigs (maxAutotune : Bool) (cap : ℕ × ℕ) (dtype : DType) (headDim : ℕ) :
    List Cfg :=
  getDefaultConfigFwd cap dtype headDim ::
    (if maxAutotune then
      [⟨128, 64, 4, 3⟩, ⟨128, 128, 4, 3⟩, ⟨128, 128, 8, 2⟩, ⟨64, 128, 4, 3⟩,
        ⟨64, 64, 4, 3⟩]
    else [])

/-- The backward configuration list: the default, plus the cartesian product
`BLOCK1 ∈ {32,64} × BLOCK2 ∈ {32,64} × w ∈ {4,8} × s ∈ {1,3}` when
`config.max_autotune` is set. -/
def bwdConfigs (maxAutotune : Bool) (cap : ℕ × ℕ) (dtype : DType) (headDim : ℕ) :
    List Cfg :=
  getDefaultConfigBwd cap dtype headDim ::
    (if maxAutotune then
      ([32, 64].flatMap fun b1 =>
        [32, 64].flatMap fun b2 =>
          [4, 8].flatMap fun w =>
            [1, 3].map fun s => (⟨b1, b2, w, s⟩ : Cfg))
    else [])

/-- Keyword arguments of one forward `maybe_append_choice` call. -/
structure FwdChoiceKwargs where
  BLOCK_M : ℕ
  BLOCK_N : ℕ
  num_warps : ℕ
  num_stages : ℕ
  BLOCK_DMODEL : ℕ
  SCORE_MOD_IS_LINEAR : Bool
  ROWS_GUARANTEED_SAFE : Bool
  OUTPUT_LOGSUMEXP : Bool
  deriving DecidableEq, Repr

/-- Keyword arguments of one backward `maybe_append_choice` call. -/
structure BwdChoiceKwargs where
  BLOCK_M1 : ℕ
  BLOCK_N1 : ℕ
  BLOCK_M2 : ℕ
  BLOCK_N2 : ℕ
  num_warps : ℕ
  num_stages : ℕ
  BLOCK_DMODEL : ℕ
  SCORE_MOD_IS_LINEAR : Bool
  deriving DecidableEq, Repr

/-- The loop body of `flex_attention`: for each `(BLOCK_M, BLOCK_N, num_warps,
num_stages)` configuration one choice is appended, with
`SCORE_MOD_IS_LINEAR=True`, `ROWS_GUARANTEED_SAFE=True`, `OUTPUT_LOGSUMEXP=True`. -/
def fwdChoiceOf (headDim : ℕ) (c : Cfg) : FwdChoiceKwargs :=
  { BLOCK_M := c.b1
    BLOCK_N := c.b2
    num_warps := c.warps
    num_stages := c.stages
    BLOCK_DMODEL := headDim
    SCORE_MOD_IS_LINEAR := true
    ROWS_GUARANTEED_SAFE := true
    OUTPUT_LOGSUMEXP := true }

/-- The loop body of `flex_attention_backward`: for each
`(BLOCK1, BLOCK2, num_warps, num_stages)` configuration one choice is appended,
with `BLOCK_M1=BLOCK_N1=BLOCK1`, `BLOCK_M2=BLOCK_N2=BLOCK2` and
`SCORE_MOD_IS_LINEAR=False`. -/
def bwdChoiceOf (headDim : ℕ) (c : Cfg) : BwdChoiceKwargs :=
  { BLOCK_M1 := c.b1
    BLOCK_N1 := c.b1
    BLOCK_M2 := c.b2
    BLOCK_N2 := c.b2
    num_warps := c.warps
    num_stages := c.stages
    BLOCK_DMODEL := headDim
    SCORE_MOD_IS_LINEAR := false }

/-- All candidate choices emitted by the forward lowering. -/
def fwdChoices (maxAutotune : Bool) (cap : ℕ × ℕ) (dtype : DType) (headDim : ℕ) :
    List FwdChoiceKwargs :=
  (fwdConfigs maxAutotune cap dtype headDim).map (fwdChoiceOf headDim)

/-- All candidate choices emitted by the backward lowering. -/
def bwdChoices (maxAutotune : Bool) (cap : ℕ × ℕ) (dtype : DType) (headDim : ℕ) :
    List BwdChoiceKwargs :=
  (bwdConfigs maxAutotune cap dtype headDim).map (bwdChoiceOf headDim)

/-- The two `tl.static_assert` checks of the backward template:
`BLOCK_M2 % BLOCK_N2 == 0` and `BLOCK_N1 % BLOCK_M1 == 0`.  A `static_assert`
is evaluated while the kernel is specialized, before any emitted kernel can run. -/
def bwdStaticAssertsOK (k : BwdChoiceKwargs) : Bool :=
  k.BLOCK_M2 % k.BLOCK_N2 == 0 && k.BLOCK_N1 % k.BLOCK_M1 == 0

/-- Specialization of the backward template: `tl.static_assert` failure aborts
compilation, so no kernel is emitted for a configuration violating the checks. -/
def compileBwdTemplate (k : BwdChoiceKwargs) : Option BwdChoiceKwargs :=
  if bwdStaticAssertsOK k then some k else none

/-! ### Backward pre-pass (`flex_attention_backward`, lines 751-760 and 812-818)

4-D tensors are modelled as a shape together with a total indexing function. -/

/-- A 4-dimensional tensor over `α`. -/
structure T4 (α : Type) where
  shape : List ℕ
  data : ℕ → ℕ → ℕ → ℕ → α

/-- `lowerings[aten.mul](out, grad_out)`: elementwise product. -/
def atenMul {α : Type} [Mul α] (f g : ℕ → ℕ → ℕ → ℕ → α) : ℕ → ℕ → ℕ → ℕ → α :=
  fun z h m d => f z h m d * g z h m d

/-- `lowerings[aten.sum](x, axis=-1)`: reduction over the last (head) dimension
of extent `D`. -/
def atenSumLast {α : Type} [AddCommMonoid α] (D : ℕ) (f : ℕ → ℕ → ℕ → ℕ → α) :
    ℕ → ℕ → ℕ → α :=
  fun z h m => ∑ d ∈ Finset.range D, f z h m d

/-- `delta = lowerings[aten.sum](lowerings[aten.mul](out, grad_out), axis=-1)`. -/
def flexBwdDelta {α : Type} [NonUnitalNonAssocSemiring α] (D : ℕ)
    (out gout : ℕ → ℕ → ℕ → ℕ → α) : ℕ → ℕ → ℕ → α :=
  atenSumLast D (atenMul out gout)

/-- `full(query.get_size(), 0.0, ...)`: an all-zero tensor of the given shape. -/
def fullZeros {α : Type} [Zero α] (shape : List ℕ) : T4 α :=
  ⟨shape, fun _ _ _ _ => 0⟩

/-- `empty_strided(value.get_size(), None, ...)`: an allocation of the given
shape with unspecified contents (the contents are a parameter). -/
def emptyStrided {α : Type} (shape : List ℕ) (junk : ℕ → ℕ → ℕ → ℕ → α) : T4 α :=
  ⟨shape, junk⟩

/-- The tensor-level pre-pass and result of `flex_attention_backward`:
`grad_query = full(query.get_size(), 0.0)`, `grad_value = empty_strided(value.get_size())`,
and the lowering returns the triple `(grad_query, grad_key, grad_value)` where
`grad_key` is the autotuned kernel's `store_output` target. -/
def flexAttentionBackwardResult {α : Type} [Zero α]
    (query value : T4 α) (gradKey : T4 α) (junk : ℕ → ℕ → ℕ → ℕ → α) :
    T4 α × T4 α × T4 α :=
  let grad_query := fullZeros (α := α) query.shape
  let grad_value := emptyStrided value.shape junk
  (grad_query, gradKey, grad_value)

/-! ### `index_to_other_buffers` and `build_subgraph_buffer`

The FX graph handed to `build_subgraph_buffer` is modelled as a list of nodes;
a node's arguments refer to earlier nodes by position or are literal values.
IR values distinguish a `TensorBox` (whose `.data` may or may not be a
`StorageBox`) from any other Python value; an FX node object that leaks into
value position (Python's `env[x] if x in env else x` falling through) is
`rawNode`. -/

/-- `SubgraphType` from the source. -/
inductive SubgraphType where
  | FWD
  | JOINT_FWD
  | JOINT_BWD
  deriving DecidableEq, Repr

/-- `index_to_other_buffers(cnt, graph_type)`. -/
def indexToOtherBuffers (cnt : ℕ) : SubgraphType → Int
  | .FWD => (cnt : Int) - 1
  | .JOINT_FWD => (cnt : Int) + 3
  | .JOINT_BWD => (cnt : Int) + 2

/-- The `.data` of a `TensorBox`: either a `StorageBox` (with its inner data
modelled as a number) or something else. -/
inductive BoxData where
  | storageBox (payload : ℕ)
  | otherData (payload : ℕ)
  deriving DecidableEq, Repr

/-- An IR value flowing through the subgraph environment. -/
inductive IRV where
  | tensorBox (data : BoxData)
  | otherVal (payload : ℕ)
  | rawNode (i : ℕ)
  deriving DecidableEq, Repr

/-- The sentinel placeholders created by `create_placeholder` in the two
lowerings, identified by name. -/
inductive SentinelKind where
  | score
  | b
  | h
  | m
  | n
  | grad_score_mod
  deriving DecidableEq, Repr

/-- `placeholder_inps` name list of `flex_attention` (and `fwd_placeholder_inps`
of `flex_attention_backward`): `score, b, h, m, n`. -/
def fwdPlaceholderKinds : List SentinelKind := [.score, .b, .h, .m, .n]

/-- `joint_placeholder_inps = fwd_placeholder_inps + [grad_score_mod]`. -/
def jointPlaceholderKinds : List SentinelKind :=
  fwdPlaceholderKinds ++ [.grad_score_mod]

/-- The sentinel tensor list each lowering passes to `build_subgraph_buffer` for
a given graph role (`mk` stands for `create_placeholder`). -/
def sentinelsFor (mk : SentinelKind → IRV) : SubgraphType → List IRV
  | .FWD => fwdPlaceholderKinds.map mk
  | .JOINT_FWD => fwdPlaceholderKinds.map mk
  | .JOINT_BWD => jointPlaceholderKinds.map mk

/-- An argument of an FX node: a reference to the node at position `i`, or a
literal value. -/
inductive FxArg where
  | node (i : ℕ)
  | lit (v : IRV)
  deriving DecidableEq, Repr

/-- `node.args[0]` of an output node: a single value or a tuple. -/
inductive FxOut where
  | single (a : FxArg)
  | tuple (l : List FxArg)
  deriving DecidableEq, Repr

/-- An FX node. -/
inductive FxNode where
  | placeholder
  | callFunction (fn : ℕ) (fargs : List FxArg)
  | output (o : FxOut)
  deriving DecidableEq, Repr

/-- Fatal errors of `build_subgraph_buffer`: an out-of-range `args[...]` access,
a failed `env[...]` lookup (or a malformed output tuple), one of the two
`assert isinstance` checks firing, and the final
`raise ValueError(... no output node ...)`. -/
inductive BuildErr where
  | indexError
  | lookupError
  | assertionError
  | noOutput
  deriving DecidableEq, Repr

/-- Python list indexing, with negative indices counting from the end and an
out-of-range access yielding `none` (an `IndexError`). -/
def pyIndex (l : List IRV) (i : Int) : Option IRV :=
  if 0 ≤ i then l.get? i.toNat
  else if (-i).toNat ≤ l.length then l.get? (l.length - (-i).toNat)
  else none

/-- `tree_map(lambda x: env[x] if x in env else x, node.args)` on one argument. -/
def resolveArg (env : ℕ → Option IRV) : FxArg → IRV
  | .node i => (env i).getD (IRV.rawNode i)
  | .lit v => v

/-- Strict `env[...]` lookup as used for the output node (no fallback: a missing
key or a non-node key is a fatal lookup error). -/
def lookupEnv (env : ℕ → Option IRV) : FxArg → Except BuildErr IRV
  | .node i =>
      match env i with
      | some v => .ok v
      | none => .error .lookupError
  | .lit _ => .error .lookupError

/-- Output selection: `node.args[0]` for the forward and joint-forward roles,
`node.args[0][0]` for the joint-backward role.  Role/shape mismatches
(subscripting a non-tuple, or using a tuple as an `env` key) are fatal. -/
def selectOutput (gt : SubgraphType) : FxOut → Except BuildErr FxArg
  | .single a => if gt = .JOINT_BWD then .error .lookupError else .ok a
  | .tuple l =>
      if gt = .JOINT_BWD then
        match l with
        | a :: _ => .ok a
        | [] => .error .indexError
      else .error .lookupError

/-- The two `assert isinstance` checks and the `ComputedBuffer` construction:
the resolved output must be a `TensorBox` whose `.data` is a `StorageBox`; the
buffer produced wraps `output_buffer.data.data`. -/
def checkOutputBuffer : IRV → Except BuildErr ℕ
  | .tensorBox (.storageBox p) => .ok p
  | _ => .error .assertionError

/-- `env[node] = args[lifted_input_index] if is_lifted_input else placeholder_inps[cnt]`,
where `is_lifted_input = cnt >= len(placeholder_inps)` and `curArgs` is the
*current* value of the local variable `args`. -/
def placeholderBinding (gt : SubgraphType) (sentinels curArgs : List IRV)
    (cnt : ℕ) : Option IRV :=
  if cnt < sentinels.length then sentinels.get? cnt
  else pyIndex curArgs (indexToOtherBuffers cnt gt)

/-- Pointwise environment update. -/
def updateEnv (env : ℕ → Option IRV) (k : ℕ) (v : IRV) : ℕ → Option IRV :=
  fun j => if j = k then some v else env j

/-- Traversal state of `build_subgraph_buffer`: position of the node being
processed (the `env` key), the running placeholder counter `cnt`, the
environment, and the current value of the local variable `args` — which the
`call_function` branch reassigns. -/
structure BuildState where
  pos : ℕ
  cnt : ℕ
  env : ℕ → Option IRV
  argsReg : List IRV

/-- `build_subgraph_buffer`, traversing `subgraph.graph_module.graph.nodes`.
`lower` stands for `lowerings[node.target]`. -/
def buildSubgraphBuffer (lower : ℕ → List IRV → IRV) (sentinels : List IRV)
    (gt : SubgraphType) : List FxNode → BuildState → Except BuildErr ℕ
  | [], _ => .error .noOutput
  | .placeholder :: rest, st =>
      match placeholderBinding gt sentinels st.argsReg st.cnt with
      | none => .error .indexError
      | some v =>
          buildSubgraphBuffer lower sentinels gt rest
            ⟨st.pos + 1, st.cnt + 1, updateEnv st.env st.pos v, st.argsReg⟩
  | .callFunction fn fargs :: rest, st =>
      let mapped := fargs.map (resolveArg st.env)
      buildSubgraphBuffer lower sentinels gt rest
        ⟨st.pos + 1, st.cnt, updateEnv st.env st.pos (lower fn mapped), mapped⟩
  | .output o :: _, st => do
      let a ← selectOutput gt o
      let v ← lookupEnv st.env a
      checkOutputBuffer v

/-- The environment produced by processing `k` consecutive placeholder nodes
starting at node position `p` with placeholder counter `c` over a base
environment (characterization used by the binding theorems). -/
def envAfterPlaceholders (gt : SubgraphType) (sentinels curArgs : List IRV)
    (base : ℕ → Option IRV) (p c k : ℕ) : ℕ → Option IRV :=
  fun j =>
    if p ≤ j ∧ j < p + k then placeholderBinding gt sentinels curArgs (c + (j - p))
    else base j

/-! ### Forward template: exact-arithmetic model (`flex_attention_template`)

The online-softmax loop of the forward template is translated over an arbitrary
linear ordered field `α` with an abstract base-2 exponential `E`; the running
row-maximum `m_i`, initialized to `-inf`, is an `Option α` with `none` for
`-inf`.  This is the `ROWS_GUARANTEED_SAFE=True` path, which is the one the
forward lowering always emits. -/

section FieldModel

variable {α : Type} [LinearOrderedField α]

/-- `tl.maximum` folding one more (finite) score into the running maximum. -/
def omax : Option α → α → Option α
  | none, b => some b
  | some a, b => some (max a b)

/-- `tl.math.exp2(x - y)` for operands that are finite or `-inf`.  A `-inf`
operand makes the subtraction `-inf` and the exponential `0`; the remaining
arms (`-inf - -inf`, `x - -inf`) never arise in this model because the running
maximum dominates every score of a nonempty tile (the NaN-accurate variant is
`fvExp2`/`fvSub` below). -/
def expSub (E : α → α) : Option α → Option α → α
  | some a, some b => E (a - b)
  | _, _ => 0

/-- The raw score `qk = tl.dot(q, k)`: `Q[m,:]·K[n,:]` over head dimension `D`. -/
def qkScore (D : ℕ) (Q K : ℕ → ℕ → α) (m n : ℕ) : α :=
  ∑ d ∈ Finset.range D, Q m d * K n d

/-- The modified, base-2-rescaled score the loop exponentiates.  `c` is the
literal constant `1.44269504`.  With `SCORE_MOD_IS_LINEAR` the constant is
folded into `q` before the dot product (`qk = c·(Q·Kᵀ)`), and the modification
is applied to the scaled score; otherwise `post_mod_scores *= c` after the
modification. -/
def postModScore (c : α) (LIN : Bool) (scoreMod : α → ℕ → ℕ → ℕ → ℕ → α)
    (D : ℕ) (Q K : ℕ → ℕ → α) (b h m n : ℕ) : α :=
  if LIN then scoreMod (c * qkScore D Q K m n) b h m n
  else c * scoreMod (qkScore D Q K m n) b h m n

/-- One iteration of the `for start_n in range(0, KV_LEN, BLOCK_N)` loop for one
query row: `s` are the post-modification scores at absolute key index, `v` the
value column.  `m_ij = tl.maximum(m_i, tl.max(scores))`,
`alpha = exp2(m_i - m_ij)`, `p_j = exp2(s_j - m_ij)`,
`l_i = l_i*alpha + sum(p)`, `acc = acc*alpha + p·v`; key indices are
`n = start_n + offs_n` with `start_n = t*BLOCK_N`. -/
def rowStep (E : α → α) (BN t : ℕ) (s v : ℕ → α) :
    Option α × α × α → Option α × α × α :=
  fun st =>
    let mij := (List.range BN).foldl (fun a j => omax a (s (t * BN + j))) st.1
    let alpha := expSub E st.1 mij
    let li := st.2.1 * alpha + ∑ j ∈ Finset.range BN, expSub E (some (s (t * BN + j))) mij
    let acc := st.2.2 * alpha +
      ∑ j ∈ Finset.range BN, expSub E (some (s (t * BN + j))) mij * v (t * BN + j)
    (mij, li, acc)

/-- The loop: `T` tiles of width `BN`, from
`m_i = -inf`, `l_i = 0`, `acc = 0`. -/
def rowState (E : α → α) (BN T : ℕ) (s v : ℕ → α) : Option α × α × α :=
  (List.range T).foldl (fun st t => rowStep E BN t s v st) (none, 0, 0)

/-- The assembled forward output at `(z, h, m, d)`.  The program at grid point
`(start_m, off_hz)` handles query rows `offs_m = start_m*BLOCK_M + arange` and
passes `b = off_hz // H`, `h = off_hz % H`, `m = offs_m`, `n = start_n + offs_n`
to the modification; the epilogue stores `acc / l_i` at
`(off_hz // H, off_hz % H, offs_m, :)`.  `Q K V` are indexed by the flattened
batch-head index (`q_offset = off_hz * stride_qh`), query/key position and head
dimension. -/
def fwdOut (E : α → α) (c : α) (LIN : Bool) (scoreMod : α → ℕ → ℕ → ℕ → ℕ → α)
    (H D BM BN T : ℕ) (Q K V : ℕ → ℕ → ℕ → α) (z h m d : ℕ) : α :=
  let zh := z * H + h
  let pid0 := m / BM
  let i := m % BM
  let mabs := pid0 * BM + i
  let s := fun n => postModScore c LIN scoreMod D (Q zh) (K zh) (zh / H) (zh % H) mabs n
  let st := rowState E BN T s (fun n => V zh n d)
  st.2.2 / st.2.1

/-- The logsumexp stored by the epilogue: `lse = m_i + tl.math.log2(l_i)` per
query row (`L2` is `log2`; `none` stands for `-inf`). -/
def fwdLSE (E : α → α) (L2 : α → α) (c : α) (LIN : Bool)
    (scoreMod : α → ℕ → ℕ → ℕ → ℕ → α)
    (H D BM BN T : ℕ) (Q K : ℕ → ℕ → ℕ → α) (z h m : ℕ) : Option α :=
  let zh := z * H + h
  let mabs := m / BM * BM + m % BM
  let s := fun n => postModScore c LIN scoreMod D (Q zh) (K zh) (zh / H) (zh % H) mabs n
  let st := rowState E BN T s (fun _ => 0)
  st.1.map fun a => a + L2 st.2.1

end FieldModel

/-! ### Forward template: IEEE-style model with `NaN` and infinities

Used for the fully-masked-row claims, where the float semantics of
`-inf - -inf = NaN`, `exp2(NaN) = NaN`, `log2(0) = -inf` and `0/0 = NaN`
matter.  Finite values carry rationals; `E`/`L` supply the (otherwise
irrelevant) finite values of `exp2`/`log2`.  Only `+0` is modelled. -/

/-- An IEEE-style float value. -/
inductive FV where
  | nan
  | ninf
  | pinf
  | fin (q : ℚ)
  deriving DecidableEq, Repr

/-- IEEE addition. -/
def fvAdd : FV → FV → FV
  | .nan, _ => .nan
  | _, .nan => .nan
  | .ninf, .pinf => .nan
  | .pinf, .ninf => .nan
  | .ninf, _ => .ninf
  | _, .ninf => .ninf
  | .pinf, _ => .pinf
  | _, .pinf => .pinf
  | .fin a, .fin b => .fin (a + b)

/-- IEEE negation. -/
def fvNeg : FV → FV
  | .nan => .nan
  | .ninf => .pinf
  | .pinf => .ninf
  | .fin a => .fin (-a)

/-- IEEE subtraction (`-inf - -inf = NaN`). -/
def fvSub (x y : FV) : FV := fvAdd x (fvNeg y)

/-- IEEE multiplication (`0 * inf = NaN`). -/
def fvMul : FV → FV → FV
  | .nan, _ => .nan
  | _, .nan => .nan
  | .ninf, .ninf => .pinf
  | .ninf, .pinf => .ninf
  | .pinf, .ninf => .ninf
  | .pinf, .pinf => .pinf
  | .ninf, .fin a => if a = 0 then .nan else if 0 < a then .ninf else .pinf
  | .fin a, .ninf => if a = 0 then .nan else if 0 < a then .ninf else .pinf
  | .pinf, .fin a => if a = 0 then .nan else if 0 < a then .pinf else .ninf
  | .fin a, .pinf => if a = 0 then .nan else if 0 < a then .pinf else .ninf
  | .fin a, .fin b => .fin (a * b)

/-- IEEE division (`0/0 = NaN`, `x/0 = ±inf` for finite nonzero `x`; only `+0`
is modelled, so a zero divisor is treated as `+0`). -/
def fvDiv : FV → FV → FV
  | .nan, _ => .nan
  | _, .nan => .nan
  | .ninf, .ninf => .nan
  | .ninf, .pinf => .nan
  | .pinf, .ninf => .nan
  | .pinf, .pinf => .nan
  | .ninf, .fin a => if 0 ≤ a then .ninf else .pinf
  | .pinf, .fin a => if 0 ≤ a then .pinf else .ninf
  | .fin _, .ninf => .fin 0
  | .fin _, .pinf => .fin 0
  | .fin a, .fin b =>
      if b = 0 then (if a = 0 then .nan else if 0 < a then .pinf else .ninf)
      else .fin (a / b)

/-- `tl.maximum` (NaN-propagating; in the analyzed paths no operand is NaN). -/
def fvMax : FV → FV → FV
  | .nan, _ => .nan
  | _, .nan => .nan
  | .ninf, x => x
  | x, .ninf => x
  | .pinf, _ => .pinf
  | _, .pinf => .pinf
  | .fin a, .fin b => .fin (max a b)

/-- `tl.math.exp2` (`exp2(-inf) = 0`, `exp2(NaN) = NaN`); `E` gives the finite
values. -/
def fvExp2 (E : ℚ → ℚ) : FV → FV
  | .nan => .nan
  | .ninf => .fin 0
  | .pinf => .pinf
  | .fin q => .fin (E q)

/-- `tl.math.log2` (`log2(0) = -inf`, `log2` of a negative is NaN); `L` gives
the finite values on positive arguments. -/
def fvLog2 (L : ℚ → ℚ) : FV → FV
  | .nan => .nan
  | .ninf => .nan
  | .pinf => .pinf
  | .fin q => if q = 0 then .ninf else if q < 0 then .nan else .fin (L q)

/-- Sum reduction (`tl.sum`), accumulating left-to-right from `+0`. -/
def fvSum (l : List FV) : FV := l.foldl fvAdd (.fin 0)

/-- One iteration of the forward loop for one query row in IEEE semantics,
including the `ROWS_GUARANTEED_SAFE` gate: unless `RGS`, rows whose updated
running maximum `m_ij` equals `-inf` get `alpha` and `p` replaced by `0`
(`tl.where(masked_out_rows, 0, ...)`). -/
def rowStepFV (E : ℚ → ℚ) (RGS : Bool) (BN t : ℕ) (s v : ℕ → FV) :
    FV × FV × FV → FV × FV × FV :=
  fun st =>
    let mij := (List.range BN).foldl (fun a j => fvMax a (s (t * BN + j))) st.1
    let alpha0 := fvExp2 E (fvSub st.1 mij)
    let p0 := fun j => fvExp2 E (fvSub (s (t * BN + j)) mij)
    let masked := mij = FV.ninf
    let alpha := if RGS then alpha0 else if masked then .fin 0 else alpha0
    let p := fun j => if RGS then p0 j else if masked then FV.fin 0 else p0 j
    let li := fvAdd (fvMul st.2.1 alpha) (fvSum ((List.range BN).map p))
    let acc := fvAdd (fvMul st.2.2 alpha)
      (fvSum ((List.range BN).map fun j => fvMul (p j) (v (t * BN + j))))
    (mij, li, acc)

/-- The IEEE-semantics loop from `m_i = -inf`, `l_i = 0`, `acc = 0`. -/
def rowStateFV (E : ℚ → ℚ) (RGS : Bool) (BN T : ℕ) (s v : ℕ → FV) : FV × FV × FV :=
  (List.range T).foldl (fun st t => rowStepFV E RGS BN t s v st) (.ninf, .fin 0, .fin 0)

/-- The stored output lane for the row: `acc = acc / l_i` after the loop. -/
def rowOutFV (E : ℚ → ℚ) (RGS : Bool) (BN T : ℕ) (s v : ℕ → FV) : FV :=
  let st := rowStateFV E RGS BN T s v
  fvDiv st.2.2 st.2.1

/-- The stored logsumexp for the row: `lse = m_i + tl.math.log2(l_i)`. -/
def rowLSEFV (E L : ℚ → ℚ) (RGS : Bool) (BN T : ℕ) (s v : ℕ → FV) : FV :=
  let st := rowStateFV E RGS BN T s v
  fvAdd st.1 (fvLog2 L st.2.1)



end FlexAttn

namespace FlexAttn

/-! ## Theorems -/

/-- C6: the forward launch grid is `(ceil(query_length / BLOCK_M), batch·heads, 1)`,
the backward launch grid is
`(ceil(query_length / BLOCK_M2) + ceil(kv_length / BLOCK_N1), 1, batch·heads)`,
and (for kv length divisible by `BLOCK_N1`, the loop-bound assumption of the
kernels) a backward unit runs the key/value phase exactly when its first-axis
index is below the number of key/value-phase units. -/
theorem c6_launch_grids (Z H M D N BM BM2 BN1 pid : ℕ)
    (hdvd : BN1 ∣ N) (hpos : 0 < BN1) :
    flex_attention_grid Z H M D BM = (tritonCdiv M BM, Z * H, 1) ∧
    flex_attention_backward_grid Z H M D N BM2 BN1 =
      (tritonCdiv M BM2 + tritonCdiv N BN1, 1, Z * H) ∧
    (bwdRunsQueryPhase pid N BN1 = false ↔ pid < tritonCdiv N BN1) := by
  refine ⟨rfl, rfl, ?_⟩
  obtain ⟨q, rfl⟩ := hdvd
  have hc : tritonCdiv (BN1 * q) BN1 = q := by
    unfold tritonCdiv
    have h1 : BN1 * q + BN1 - 1 = BN1 * q + (BN1 - 1) := by omega
    rw [h1, Nat.mul_add_div hpos, Nat.div_eq_of_lt (by omega), add_zero]
  have hf : numKVBlocks (BN1 * q) BN1 = q := Nat.mul_div_cancel_left q hpos
  simp [bwdRunsQueryPhase, hc, hf, decide_eq_false_iff_not, Nat.not_le,
    Nat.lt_iff_add_one_le]

/-- Witness for C6 at a concrete instance. -/
theorem c6_launch_grids_witness :
    flex_attention_grid 1 2 8 4 4 = (tritonCdiv 8 4, 1 * 2, 1) ∧
    flex_attention_backward_grid 1 2 8 4 8 4 4 =
      (tritonCdiv 8 4 + tritonCdiv 8 4, 1, 1 * 2) ∧
    (bwdRunsQueryPhase 1 8 4 = false ↔ 1 < tritonCdiv 8 4) :=
  c6_launch_grids 1 2 8 4 8 4 4 4 1 (by norm_num) (by norm_num)

/-- C7: every configuration the backward lowering turns into a template choice
has `BLOCK_N1 % BLOCK_M1 = 0` and `BLOCK_M2 % BLOCK_N2 = 0` (the lowering ties
`BLOCK_M1 = BLOCK_N1 = BLOCK1` and `BLOCK_M2 = BLOCK_N2 = BLOCK2`), so the
template's `tl.static_assert` checks pass and the kernel is emitted; any
parameter set violating the checks is rejected at specialization time, before
the kernel exists, never at runtime. -/
theorem c7_bwd_divisibility (maxAutotune : Bool) (cap : ℕ × ℕ) (dtype : DType)
    (headDim : ℕ) :
    (∀ k ∈ bwdChoices maxAutotune cap dtype headDim,
      k.BLOCK_N2 ∣ k.BLOCK_M2 ∧ k.BLOCK_M1 ∣ k.BLOCK_N1 ∧
        compileBwdTemplate k = some k) ∧
    (∀ k : BwdChoiceKwargs, bwdStaticAssertsOK k = false →
      compileBwdTemplate k = none) := by
  constructor
  · intro k hk
    obtain ⟨c, _, rfl⟩ := List.mem_map.mp hk
    refine ⟨dvd_refl _, dvd_refl _, ?_⟩
    simp [compileBwdTemplate, bwdStaticAssertsOK, bwdChoiceOf, Nat.mod_self]
  · intro k hk
    simp [compileBwdTemplate, hk]

/-- Witness for C7 at a concrete instance. -/
theorem c7_bwd_divisibility_witness :
    ((bwdChoiceOf 64 ⟨32, 64, 4, 1⟩).BLOCK_N2 ∣ (bwdChoiceOf 64 ⟨32, 64, 4, 1⟩).BLOCK_M2 ∧
      (bwdChoiceOf 64 ⟨32, 64, 4, 1⟩).BLOCK_M1 ∣ (bwdChoiceOf 64 ⟨32, 64, 4, 1⟩).BLOCK_N1 ∧
      compileBwdTemplate (bwdChoiceOf 64 ⟨32, 64, 4, 1⟩) = some (bwdChoiceOf 64 ⟨32, 64, 4, 1⟩)) ∧
    compileBwdTemplate ⟨32, 48, 64, 64, 4, 1, 64, false⟩ = none := by
  constructor
  · exact (c7_bwd_divisibility true (9, 0) .float32 64).1 _ (by decide)
  · exact (c7_bwd_divisibility true (9, 0) .float32 64).2 _ (by decide)

/-- C8: the forward lowering emits every candidate with
`SCORE_MOD_IS_LINEAR = True` (and `ROWS_GUARANTEED_SAFE = True`,
`OUTPUT_LOGSUMEXP = True`), and the backward lowering emits every candidate
with `SCORE_MOD_IS_LINEAR = False`, for every hardware tier, datatype, head
dimension and autotune setting — independently of the modification function. -/
theorem c8_score_mod_is_linear (maxAutotune : Bool) (cap : ℕ × ℕ) (dtype : DType)
    (headDim : ℕ) :
    (∀ k ∈ fwdChoices maxAutotune cap dtype headDim,
      k.SCORE_MOD_IS_LINEAR = true ∧ k.ROWS_GUARANTEED_SAFE = true ∧
        k.OUTPUT_LOGSUMEXP = true) ∧
    (∀ k ∈ bwdChoices maxAutotune cap dtype headDim,
      k.SCORE_MOD_IS_LINEAR = false) := by
  constructor
  · intro k hk
    obtain ⟨c, _, rfl⟩ := List.mem_map.mp hk
    exact ⟨rfl, rfl, rfl⟩
  · intro k hk
    obtain ⟨c, _, rfl⟩ := List.mem_map.mp hk
    rfl

/-- Witness for C8 at a concrete instance. -/
theorem c8_score_mod_is_linear_witness :
    ((fwdChoiceOf 64 ⟨128, 64, 4, 3⟩).SCORE_MOD_IS_LINEAR = true ∧
      (fwdChoiceOf 64 ⟨128, 64, 4, 3⟩).ROWS_GUARANTEED_SAFE = true ∧
      (fwdChoiceOf 64 ⟨128, 64, 4, 3⟩).OUTPUT_LOGSUMEXP = true) ∧
    (bwdChoiceOf 64 ⟨32, 32, 4, 1⟩).SCORE_MOD_IS_LINEAR = false := by
  constructor
  · exact (c8_score_mod_is_linear true (9, 0) .bfloat16 64).1 _ (by decide)
  · exact (c8_score_mod_is_linear true (9, 0) .bfloat16 64).2 _ (by decide)

/-- Processing a block of `k` consecutive placeholder nodes: positions and the
placeholder counter advance by `k`, the environment extends by the bindings,
and the `args` register is unchanged. -/
theorem bsb_placeholder_block (lower : ℕ → List IRV → IRV) (sentinels : List IRV)
    (gt : SubgraphType) (rest : List FxNode) (ar : List IRV) (k : ℕ) :
    ∀ (p c : ℕ) (env : ℕ → Option IRV),
      (∀ j, j < k → (placeholderBinding gt sentinels ar (c + j)).isSome) →
      buildSubgraphBuffer lower sentinels gt
          (List.replicate k .placeholder ++ rest) ⟨p, c, env, ar⟩ =
        buildSubgraphBuffer lower sentinels gt rest
          ⟨p + k, c + k, envAfterPlaceholders gt sentinels ar env p c k, ar⟩ := by
  induction k with
  | zero =>
    intro p c env _
    have he : envAfterPlaceholders gt sentinels ar env p c 0 = env := by
      funext j
      exact if_neg (by omega)
    simp [he]
  | succ k ih =>
    intro p c env h
    have h0 := h 0 k.succ_pos
    rw [Nat.add_zero] at h0
    obtain ⟨v, hv⟩ := Option.isSome_iff_exists.mp h0
    rw [List.replicate_succ, List.cons_append]
    have hstep : buildSubgraphBuffer lower sentinels gt
        (.placeholder :: (List.replicate k .placeholder ++ rest)) ⟨p, c, env, ar⟩ =
        buildSubgraphBuffer lower sentinels gt (List.replicate k .placeholder ++ rest)
          ⟨p + 1, c + 1, updateEnv env p v, ar⟩ := by
      simp only [buildSubgraphBuffer]
      rw [hv]
    rw [hstep, ih (p + 1) (c + 1) (updateEnv env p v) (fun j hj => by
      have := h (j + 1) (by omega)
      rwa [show c + (j + 1) = c + 1 + j by omega] at this)]
    have hp : p + 1 + k = p + (k + 1) := by omega
    have hc : c + 1 + k = c + (k + 1) := by omega
    have henv : envAfterPlaceholders gt sentinels ar (updateEnv env p v) (p + 1) (c + 1) k =
        envAfterPlaceholders gt sentinels ar env p c (k + 1) := by
      funext j
      unfold envAfterPlaceholders updateEnv
      by_cases h1 : p + 1 ≤ j ∧ j < p + 1 + k
      · rw [if_pos h1, if_pos (by omega)]
        congr 1
        omega
      · rw [if_neg h1]
        by_cases h2 : j = p
        · rw [if_pos h2, if_pos (by omega), show c + (j - p) = c by omega]
          exact hv.symm
        · rw [if_neg h2, if_neg (by omega)]
    rw [hp, hc, henv]

/-- A run of `call_function` nodes alone never returns a buffer; reaching the
end of the node list is the `raise ValueError` case. -/
theorem bsb_callFunctions_noOutput (lower : ℕ → List IRV → IRV) (sentinels : List IRV)
    (gt : SubgraphType) (fns : List (ℕ × List FxArg)) :
    ∀ st : BuildState,
      buildSubgraphBuffer lower sentinels gt
          (fns.map fun fa => .callFunction fa.1 fa.2) st = .error .noOutput := by
  induction fns with
  | nil => intro st; rfl
  | cons fa fns ih =>
    intro st
    simp only [List.map_cons, buildSubgraphBuffer]
    exact ih _

/-- C3: in `build_subgraph_buffer`, when all placeholder nodes precede the rest
of the graph (the FX declaration-order invariant), the first
`len(placeholder_inps)` placeholders — 5 sentinels for the forward and
joint-forward-recompute roles, 6 for the joint-backward role — are bound to the
sentinel tensors in declaration order, and every subsequent placeholder with
running index `cnt` is bound to the external argument at position `cnt - 1`
(forward), `cnt + 3` (joint-forward-recompute), `cnt + 2` (joint-backward). -/
theorem c3_placeholder_bindings (lower : ℕ → List IRV → IRV)
    (mk : SentinelKind → IRV) (gt : SubgraphType) (origArgs : List IRV)
    (rest : List FxNode) (P : ℕ)
    (hres : ∀ j, j < P →
      (placeholderBinding gt (sentinelsFor mk gt) origArgs j).isSome) :
    (sentinelsFor mk .FWD).length = 5 ∧
    (sentinelsFor mk .JOINT_FWD).length = 5 ∧
    (sentinelsFor mk .JOINT_BWD).length = 6 ∧
    buildSubgraphBuffer lower (sentinelsFor mk gt) gt
        (List.replicate P .placeholder ++ rest) ⟨0, 0, fun _ => none, origArgs⟩ =
      buildSubgraphBuffer lower (sentinelsFor mk gt) gt rest
        ⟨P, P,
          envAfterPlaceholders gt (sentinelsFor mk gt) origArgs (fun _ => none) 0 0 P,
          origArgs⟩ ∧
    (∀ i, i < P → i < (sentinelsFor mk gt).length →
      envAfterPlaceholders gt (sentinelsFor mk gt) origArgs (fun _ => none) 0 0 P i =
        (sentinelsFor mk gt).get? i) ∧
    (∀ i, i < P → (sentinelsFor mk gt).length ≤ i →
      (gt = .FWD →
        envAfterPlaceholders gt (sentinelsFor mk gt) origArgs (fun _ => none) 0 0 P i =
          origArgs.get? (i - 1)) ∧
      (gt = .JOINT_FWD →
        envAfterPlaceholders gt (sentinelsFor mk gt) origArgs (fun _ => none) 0 0 P i =
          origArgs.get? (i + 3)) ∧
      (gt = .JOINT_BWD →
        envAfterPlaceholders gt (sentinelsFor mk gt) origArgs (fun _ => none) 0 0 P i =
          origArgs.get? (i + 2))) := by
  refine ⟨rfl, rfl, rfl, ?_, ?_, ?_⟩
  · have := bsb_placeholder_block lower (sentinelsFor mk gt) gt rest origArgs P 0 0
      (fun _ => none) (fun j hj => by rw [Nat.zero_add]; exact hres j hj)
    simpa using this
  · intro i hiP hiS
    unfold envAfterPlaceholders
    rw [if_pos (by omega), show 0 + (i - 0) = i by omega]
    exact if_pos hiS
  · intro i hiP hiS
    have hb : envAfterPlaceholders gt (sentinelsFor mk gt) origArgs (fun _ => none) 0 0 P i =
        placeholderBinding gt (sentinelsFor mk gt) origArgs i := by
      unfold envAfterPlaceholders
      rw [if_pos (by omega), show 0 + (i - 0) = i by omega]
    refine ⟨?_, ?_, ?_⟩
    · rintro rfl
      have h5 : (sentinelsFor mk SubgraphType.FWD).length = 5 := rfl
      rw [h5] at hiS
      rw [hb]
      unfold placeholderBinding
      rw [if_neg (by omega)]
      simp only [indexToOtherBuffers, pyIndex]
      rw [if_pos (by omega)]
      congr 1
      omega
    · rintro rfl
      rw [hb]
      unfold placeholderBinding
      rw [if_neg (by omega)]
      simp only [indexToOtherBuffers, pyIndex]
      rw [if_pos (by omega)]
      congr 1
    · rintro rfl
      rw [hb]
      unfold placeholderBinding
      rw [if_neg (by omega)]
      simp only [indexToOtherBuffers, pyIndex]
      rw [if_pos (by omega)]
      congr 1

/-- Witness for C3: forward role, 6 placeholders (5 sentinels and one lifted
input bound to `args[4]`, the first of the other buffers). -/
theorem c3_placeholder_bindings_witness :
    (sentinelsFor (fun _ => IRV.otherVal 0) .FWD).length = 5 ∧
    (sentinelsFor (fun _ => IRV.otherVal 0) .JOINT_FWD).length = 5 ∧
    (sentinelsFor (fun _ => IRV.otherVal 0) .JOINT_BWD).length = 6 ∧
    buildSubgraphBuffer (fun _ _ => IRV.otherVal 0)
        (sentinelsFor (fun _ => IRV.otherVal 0) .FWD) .FWD
        (List.replicate 6 .placeholder ++ [])
        ⟨0, 0, fun _ => none,
          [IRV.otherVal 1, IRV.otherVal 2, IRV.otherVal 3, IRV.otherVal 4,
            IRV.tensorBox (.storageBox 11)]⟩ =
      buildSubgraphBuffer (fun _ _ => IRV.otherVal 0)
        (sentinelsFor (fun _ => IRV.otherVal 0) .FWD) .FWD []
        ⟨6, 6,
          envAfterPlaceholders .FWD (sentinelsFor (fun _ => IRV.otherVal 0) .FWD)
            [IRV.otherVal 1, IRV.otherVal 2, IRV.otherVal 3, IRV.otherVal 4,
              IRV.tensorBox (.storageBox 11)] (fun _ => none) 0 0 6,
          [IRV.otherVal 1, IRV.otherVal 2, IRV.otherVal 3, IRV.otherVal 4,
            IRV.tensorBox (.storageBox 11)]⟩ ∧
    (∀ i, i < 6 → i < (sentinelsFor (fun _ => IRV.otherVal 0) .FWD).length →
      envAfterPlaceholders .FWD (sentinelsFor (fun _ => IRV.otherVal 0) .FWD)
          [IRV.otherVal 1, IRV.otherVal 2, IRV.otherVal 3, IRV.otherVal 4,
            IRV.tensorBox (.storageBox 11)] (fun _ => none) 0 0 6 i =
        (sentinelsFor (fun _ => IRV.otherVal 0) .FWD).get? i) ∧
    (∀ i, i < 6 → (sentinelsFor (fun _ => IRV.otherVal 0) .FWD).length ≤ i →
      (SubgraphType.FWD = .FWD →
        envAfterPlaceholders .FWD (sentinelsFor (fun _ => IRV.otherVal 0) .FWD)
            [IRV.otherVal 1, IRV.otherVal 2, IRV.otherVal 3, IRV.otherVal 4,
              IRV.tensorBox (.storageBox 11)] (fun _ => none) 0 0 6 i =
          [IRV.otherVal 1, IRV.otherVal 2, IRV.otherVal 3, IRV.otherVal 4,
            IRV.tensorBox (.storageBox 11)].get? (i - 1)) ∧
      (SubgraphType.FWD = .JOINT_FWD →
        envAfterPlaceholders .FWD (sentinelsFor (fun _ => IRV.otherVal 0) .FWD)
            [IRV.otherVal 1, IRV.otherVal 2, IRV.otherVal 3, IRV.otherVal 4,
              IRV.tensorBox (.storageBox 11)] (fun _ => none) 0 0 6 i =
          [IRV.otherVal 1, IRV.otherVal 2, IRV.otherVal 3, IRV.otherVal 4,
            IRV.tensorBox (.storageBox 11)].get? (i + 3)) ∧
      (SubgraphType.FWD = .JOINT_BWD →
        envAfterPlaceholders .FWD (sentinelsFor (fun _ => IRV.otherVal 0) .FWD)
            [IRV.otherVal 1, IRV.otherVal 2, IRV.otherVal 3, IRV.otherVal 4,
              IRV.tensorBox (.storageBox 11)] (fun _ => none) 0 0 6 i =
          [IRV.otherVal 1, IRV.otherVal 2, IRV.otherVal 3, IRV.otherVal 4,
            IRV.tensorBox (.storageBox 11)].get? (i + 2))) :=
  c3_placeholder_bindings (fun _ _ => IRV.otherVal 0) (fun _ => IRV.otherVal 0)
    .FWD _ [] 6 (by decide)

/-- C4: at an output node, the forward and joint-forward-recompute roles take
the output node's single input value and the joint-backward role takes the
first element of the output tuple; the resolved value must be a `TensorBox`
wrapping a `StorageBox` (whose inner data becomes the buffer), anything else is
an immediate assertion failure; and a graph whose traversal completes without
an output node yields the fatal `ValueError` and no buffer. -/
theorem c4_output_contract (lower : ℕ → List IRV → IRV) (sentinels : List IRV) :
    (∀ gt, gt ≠ SubgraphType.JOINT_BWD →
      ∀ (a : FxArg) (rest : List FxNode) (st : BuildState),
        buildSubgraphBuffer lower sentinels gt (.output (.single a) :: rest) st =
          (lookupEnv st.env a).bind checkOutputBuffer) ∧
    (∀ (a : FxArg) (l : List FxArg) (rest : List FxNode) (st : BuildState),
      buildSubgraphBuffer lower sentinels .JOINT_BWD
          (.output (.tuple (a :: l)) :: rest) st =
        (lookupEnv st.env a).bind checkOutputBuffer) ∧
    (∀ p, checkOutputBuffer (.tensorBox (.storageBox p)) = .ok p) ∧
    (∀ q, checkOutputBuffer (.tensorBox (.otherData q)) = .error .assertionError) ∧
    (∀ q, checkOutputBuffer (.otherVal q) = .error .assertionError) ∧
    (∀ i, checkOutputBuffer (.rawNode i) = .error .assertionError) ∧
    (∀ (gt : SubgraphType) (P : ℕ) (fns : List (ℕ × List FxArg)) (origArgs : List IRV),
      (∀ j, j < P → (placeholderBinding gt sentinels origArgs j).isSome) →
      buildSubgraphBuffer lower sentinels gt
          (List.replicate P .placeholder ++ fns.map fun fa => .callFunction fa.1 fa.2)
          ⟨0, 0, fun _ => none, origArgs⟩ = .error .noOutput) := by
  refine ⟨?_, ?_, fun _ => rfl, fun _ => rfl, fun _ => rfl, fun _ => rfl, ?_⟩
  · intro gt hgt a rest st
    simp only [buildSubgraphBuffer, selectOutput, if_neg hgt]
    rfl
  · intro a l rest st
    rfl
  · intro gt P fns origArgs hres
    rw [bsb_placeholder_block lower sentinels gt _ origArgs P 0 0 (fun _ => none)
      (fun j hj => by rw [Nat.zero_add]; exact hres j hj)]
    exact bsb_callFunctions_noOutput lower sentinels gt fns _

/-- Witness for C4 at concrete instances. -/
theorem c4_output_contract_witness :
    buildSubgraphBuffer (fun _ _ => IRV.otherVal 0) [] .FWD
        [.output (.single (.node 0))]
        ⟨1, 0, updateEnv (fun _ => none) 0 (IRV.tensorBox (.storageBox 7)), []⟩ =
      (lookupEnv (updateEnv (fun _ => none) 0 (IRV.tensorBox (.storageBox 7)))
          (.node 0)).bind checkOutputBuffer ∧
    checkOutputBuffer (.otherVal 3) = .error .assertionError ∧
    buildSubgraphBuffer (fun _ _ => IRV.otherVal 0) [] .JOINT_FWD
        ([] ++ List.map (fun fa => FxNode.callFunction fa.1 fa.2) [(0, [FxArg.lit (IRV.otherVal 1)])])
        ⟨0, 0, fun _ => none, []⟩ = .error .noOutput := by
  have h := c4_output_contract (fun _ _ => IRV.otherVal 0) []
  refine ⟨h.1 .FWD (by decide) (.node 0) [] _, h.2.2.2.2.1 3, ?_⟩
  have h7 := h.2.2.2.2.2.2 .JOINT_FWD 0 [(0, [FxArg.lit (IRV.otherVal 1)])] []
    (fun j hj => absurd hj (by omega))
  simpa using h7

/-- C10: the `call_function` branch reassigns the local name `args` to the
node's own mapped argument tuple, so a lifted placeholder encountered after a
`call_function` node is resolved against that tuple — at the same
`cnt + offset(role)` position — instead of the kernel's original argument
list. -/
theorem c10_args_reassigned (lower : ℕ → List IRV → IRV) (mk : SentinelKind → IRV)
    (gt : SubgraphType) (origArgs : List IRV) (rest : List FxNode) (P : ℕ)
    (fn : ℕ) (fargs : List FxArg)
    (hres : ∀ j, j < P →
      (placeholderBinding gt (sentinelsFor mk gt) origArgs j).isSome)
    (hlift : (sentinelsFor mk gt).length ≤ P)
    (hres2 : (pyIndex
      (fargs.map (resolveArg
        (envAfterPlaceholders gt (sentinelsFor mk gt) origArgs (fun _ => none) 0 0 P)))
      (indexToOtherBuffers P gt)).isSome) :
    ∃ v,
      pyIndex
          (fargs.map (resolveArg
            (envAfterPlaceholders gt (sentinelsFor mk gt) origArgs (fun _ => none) 0 0 P)))
          (indexToOtherBuffers P gt) = some v ∧
      buildSubgraphBuffer lower (sentinelsFor mk gt) gt
          (List.replicate P .placeholder ++ .callFunction fn fargs :: .placeholder :: rest)
          ⟨0, 0, fun _ => none, origArgs⟩ =
        buildSubgraphBuffer lower (sentinelsFor mk gt) gt rest
          ⟨P + 2, P + 1,
            updateEnv
              (updateEnv
                (envAfterPlaceholders gt (sentinelsFor mk gt) origArgs (fun _ => none) 0 0 P)
                P
                (lower fn
                  (fargs.map (resolveArg
                    (envAfterPlaceholders gt (sentinelsFor mk gt) origArgs
                      (fun _ => none) 0 0 P)))))
              (P + 1) v,
            fargs.map (resolveArg
              (envAfterPlaceholders gt (sentinelsFor mk gt) origArgs (fun _ => none) 0 0 P))⟩ := by
  obtain ⟨v, hv⟩ := Option.isSome_iff_exists.mp hres2
  refine ⟨v, hv, ?_⟩
  rw [bsb_placeholder_block lower (sentinelsFor mk gt) gt _ origArgs P 0 0 (fun _ => none)
    (fun j hj => by rw [Nat.zero_add]; exact hres j hj)]
  simp only [Nat.zero_add, buildSubgraphBuffer]
  have hbind : placeholderBinding gt (sentinelsFor mk gt)
      (fargs.map (resolveArg
        (envAfterPlaceholders gt (sentinelsFor mk gt) origArgs (fun _ => none) 0 0 P))) P =
      some v := by
    unfold placeholderBinding
    rw [if_neg (by omega)]
    exact hv
  rw [hbind]

/-- Witness for C10: the sixth placeholder of a forward-role graph, occurring
after a `call_function` node, is bound to position `cnt - 1 = 4` of the mapped
argument tuple of that `call_function` node, not of the original argument list. -/
theorem c10_args_reassigned_witness :
    ∃ v,
      pyIndex
          ([FxArg.lit (IRV.otherVal 21), FxArg.lit (IRV.otherVal 22),
            FxArg.lit (IRV.otherVal 23), FxArg.lit (IRV.otherVal 24),
            FxArg.lit (IRV.otherVal 25)].map (resolveArg
            (envAfterPlaceholders .FWD
              (sentinelsFor (fun _ => IRV.otherVal 0) .FWD)
              [IRV.otherVal 1] (fun _ => none) 0 0 5)))
          (indexToOtherBuffers 5 .FWD) = some v ∧
      buildSubgraphBuffer (fun _ _ => IRV.otherVal 0)
          (sentinelsFor (fun _ => IRV.otherVal 0) .FWD) .FWD
          (List.replicate 5 .placeholder ++
            .callFunction 0
              [FxArg.lit (IRV.otherVal 21), FxArg.lit (IRV.otherVal 22),
                FxArg.lit (IRV.otherVal 23), FxArg.lit (IRV.otherVal 24),
                FxArg.lit (IRV.otherVal 25)] :: .placeholder :: [])
          ⟨0, 0, fun _ => none, [IRV.otherVal 1]⟩ =
        buildSubgraphBuffer (fun _ _ => IRV.otherVal 0)
          (sentinelsFor (fun _ => IRV.otherVal 0) .FWD) .FWD []
          ⟨5 + 2, 5 + 1,
            updateEnv
              (updateEnv
                (envAfterPlaceholders .FWD (sentinelsFor (fun _ => IRV.otherVal 0) .FWD)
                  [IRV.otherVal 1] (fun _ => none) 0 0 5)
                5
                (IRV.otherVal 0))
              (5 + 1) v,
            [FxArg.lit (IRV.otherVal 21), FxArg.lit (IRV.otherVal 22),
              FxArg.lit (IRV.otherVal 23), FxArg.lit (IRV.otherVal 24),
              FxArg.lit (IRV.otherVal 25)].map (resolveArg
              (envAfterPlaceholders .FWD (sentinelsFor (fun _ => IRV.otherVal 0) .FWD)
                [IRV.otherVal 1] (fun _ => none) 0 0 5))⟩ :=
  c10_args_reassigned (fun _ _ => IRV.otherVal 0) (fun _ => IRV.otherVal 0) .FWD
    [IRV.otherVal 1] [] 5 0 _ (by decide) (by decide) (by decide)

/-- C9: before the backward kernel is launched, `Delta[z,h,m]` is the sum over
`d` of `Out[z,h,m,d] * GradOut[z,h,m,d]` (elementwise `aten.mul` followed by an
`aten.sum` over the last axis); `grad_query` is an all-zero tensor of the
query's shape, `grad_value` is an allocation of the value's shape, and the
lowering returns the triple `(grad_query, grad_key, grad_value)`. -/
theorem c9_bwd_prepass {α : Type} [CommRing α] (D : ℕ)
    (out gout : ℕ → ℕ → ℕ → ℕ → α) (query value gradKey : T4 α)
    (junk : ℕ → ℕ → ℕ → ℕ → α) (z h m : ℕ) :
    flexBwdDelta D out gout z h m =
      ∑ d ∈ Finset.range D, out z h m d * gout z h m d ∧
    (flexAttentionBackwardResult query value gradKey junk).1.shape = query.shape ∧
    (∀ z' h' m' d',
      (flexAttentionBackwardResult query value gradKey junk).1.data z' h' m' d' = 0) ∧
    (flexAttentionBackwardResult query value gradKey junk).2.2.shape = value.shape ∧
    flexAttentionBackwardResult query value gradKey junk =
      (fullZeros query.shape, gradKey, emptyStrided value.shape junk) :=
  ⟨rfl, rfl, fun _ _ _ _ => rfl, rfl, rfl⟩


/-- `omax` always yields a finite value. -/
theorem omax_isSome {α : Type} [LinearOrderedField α] (o : Option α) (b : α) :
    (omax o b).isSome := by
  cases o <;> rfl

/-- Folding `omax` over a nonempty index list (or from a finite start) yields a
finite value: a nonempty tile always has a finite running maximum. -/
theorem foldl_omax_isSome {α : Type} [LinearOrderedField α] (g : ℕ → α) :
    ∀ (l : List ℕ) (o : Option α), o.isSome = true ∨ l ≠ [] →
      (l.foldl (fun acc j => omax acc (g j)) o).isSome := by
  intro l
  induction l with
  | nil =>
    intro o ho
    rcases ho with ho | ho
    · exact ho
    · exact absurd rfl ho
  | cons j l ih =>
    intro o _
    rw [List.foldl_cons]
    exact ih _ (Or.inl (omax_isSome o (g j)))

/-- Peeling one tile off the loop. -/
theorem rowState_succ {α : Type} [LinearOrderedField α] (E : α → α) (BN T : ℕ)
    (s v : ℕ → α) :
    rowState E BN (T + 1) s v = rowStep E BN T s v (rowState E BN T s v) := by
  unfold rowState
  rw [List.range_succ, List.foldl_append]
  rfl

/-- Online-softmax loop invariant: after `T ≥ 1` tiles the running maximum is
some finite `Mv`, the running sum is `Σ_{n < T·BN} E(s n - Mv)` and the
accumulator is `Σ_{n < T·BN} E(s n - Mv)·v n` — the rescaling by
`alpha = E(m_i - m_ij)` keeps every past contribution expressed relative to the
current maximum. -/
theorem rowState_spec {α : Type} [LinearOrderedField α] (E : α → α)
    (hE : ∀ a b, E (a + b) = E a * E b) (BN : ℕ) (hBN : 0 < BN) (s v : ℕ → α) :
    ∀ T, 0 < T → ∃ Mv : α,
      (rowState E BN T s v).1 = some Mv ∧
      (rowState E BN T s v).2.1 = ∑ n ∈ Finset.range (T * BN), E (s n - Mv) ∧
      (rowState E BN T s v).2.2 =
        ∑ n ∈ Finset.range (T * BN), E (s n - Mv) * v n := by
  intro T
  induction T with
  | zero => omega
  | succ T ih =>
    intro _
    rw [rowState_succ]
    by_cases hT0 : T = 0
    · subst hT0
      have hsome : ((List.range BN).foldl
          (fun a j => omax a (s (0 * BN + j))) (none : Option α)).isSome :=
        foldl_omax_isSome _ _ none
          (Or.inr (by simpa [List.range_eq_nil] using Nat.pos_iff_ne_zero.mp hBN))
      obtain ⟨Mv, hm⟩ := Option.isSome_iff_exists.mp hsome
      refine ⟨Mv, ?_, ?_, ?_⟩
      · simp only [rowStep, rowState, List.range_zero, List.foldl_nil]
        exact hm
      · simp only [rowStep, rowState, List.range_zero, List.foldl_nil]
        rw [hm]
        simp only [expSub, zero_mul, zero_add, one_mul]
      · simp only [rowStep, rowState, List.range_zero, List.foldl_nil]
        rw [hm]
        simp only [expSub, zero_mul, zero_add, one_mul]
    · obtain ⟨Mv, h1, h2, h3⟩ := ih (Nat.pos_of_ne_zero hT0)
      have hsome : ((List.range BN).foldl
          (fun a j => omax a (s (T * BN + j))) (rowState E BN T s v).1).isSome := by
        apply foldl_omax_isSome
        rw [h1]
        exact Or.inl rfl
      obtain ⟨Mv2, hm⟩ := Option.isSome_iff_exists.mp hsome
      refine ⟨Mv2, ?_, ?_, ?_⟩
      · simp only [rowStep]
        exact hm
      · simp only [rowStep]
        rw [hm, h1, h2]
        simp only [expSub]
        rw [Nat.succ_mul, Finset.sum_range_add, Finset.sum_mul]
        congr 1
        refine Finset.sum_congr rfl fun n _ => ?_
        rw [← hE]
        congr 1
        ring
      · simp only [rowStep]
        rw [hm, h1, h3]
        simp only [expSub]
        rw [Nat.succ_mul, Finset.sum_range_add, Finset.sum_mul]
        congr 1
        refine Finset.sum_congr rfl fun n _ => ?_
        rw [mul_right_comm, ← hE]
        have harg : s n - Mv + (Mv - Mv2) = s n - Mv2 := by ring
        rw [harg]

/-- Normalizing the accumulator by the running sum gives the direct softmax:
the maximum shift cancels. -/
theorem rowOut_softmax {α : Type} [LinearOrderedField α] (E : α → α)
    (hE : ∀ a b, E (a + b) = E a * E b) (hpos : ∀ a, 0 < E a)
    (BN T : ℕ) (hBN : 0 < BN) (hT : 0 < T) (s v : ℕ → α) :
    (rowState E BN T s v).2.2 / (rowState E BN T s v).2.1 =
      (∑ n ∈ Finset.range (T * BN), E (s n) * v n) /
        ∑ n ∈ Finset.range (T * BN), E (s n) := by
  obtain ⟨Mv, _, h2, h3⟩ := rowState_spec E hE BN hBN s v T hT
  rw [h2, h3]
  have hden : ∑ n ∈ Finset.range (T * BN), E (s n) =
      E Mv * ∑ n ∈ Finset.range (T * BN), E (s n - Mv) := by
    rw [Finset.mul_sum]
    refine Finset.sum_congr rfl fun n _ => ?_
    rw [← hE]
    congr 1
    ring
  have hnum : ∑ n ∈ Finset.range (T * BN), E (s n) * v n =
      E Mv * ∑ n ∈ Finset.range (T * BN), E (s n - Mv) * v n := by
    rw [Finset.mul_sum]
    refine Finset.sum_congr rfl fun n _ => ?_
    rw [← mul_assoc, ← hE]
    congr 2
    ring
  rw [hnum, hden, mul_div_mul_left _ _ (ne_of_gt (hpos Mv))]

/-- The per-row state does not depend on the value column (its first two
components ignore `v`). -/
theorem rowState_fst_snd_indep {α : Type} [LinearOrderedField α] (E : α → α)
    (BN T : ℕ) (s v w : ℕ → α) :
    (rowState E BN T s v).1 = (rowState E BN T s w).1 ∧
    (rowState E BN T s v).2.1 = (rowState E BN T s w).2.1 := by
  induction T with
  | zero => exact ⟨rfl, rfl⟩
  | succ T ih =>
    refine ⟨?_, ?_⟩
    · rw [rowState_succ, rowState_succ]
      simp only [rowStep]
      rw [ih.1]
    · rw [rowState_succ, rowState_succ]
      simp only [rowStep]
      rw [ih.1, ih.2]


/-- C1: for every attention problem and every valid tile configuration
(nonempty tiles covering the key/value length), the forward kernel's output at
`(z, h, m, :)` equals the reference `Σ_n softmax_n(modify(Q·Kᵀ[z,h,m,n])) · V[z,h,n,:]`,
with the modification applied elementwise at the absolute indices
`(off_hz // H, off_hz % H, start_m·BLOCK_M + arange, start_n + offs_n)` — which
recombine to exactly `(z, h, m, n)`.  `E` is the abstract base-2 exponential,
`Eexp` the natural one, related by `E(c·x) = Eexp(x)` (the meaning of the
folded constant `c = log2(e)`); when `SCORE_MOD_IS_LINEAR` is set the
modification must commute with the rescale, which is the declared contract of
that flag. -/
theorem c1_forward_output_matches_reference {α : Type} [LinearOrderedField α]
    (E Eexp : α → α) (c : α)
    (hE : ∀ a b, E (a + b) = E a * E b)
    (hpos : ∀ a, 0 < E a)
    (hEc : ∀ x, E (c * x) = Eexp x)
    (LIN : Bool) (scoreMod : α → ℕ → ℕ → ℕ → ℕ → α)
    (hLIN : LIN = true →
      ∀ x b h m n, scoreMod (c * x) b h m n = c * scoreMod x b h m n)
    (H D BM BN T : ℕ) (hBN : 0 < BN) (hT : 0 < T)
    (Q K V : ℕ → ℕ → ℕ → α) (z h m d : ℕ) (hh : h < H) :
    fwdOut E c LIN scoreMod H D BM BN T Q K V z h m d =
      (∑ n ∈ Finset.range (T * BN),
          Eexp (scoreMod (qkScore D (Q (z * H + h)) (K (z * H + h)) m n) z h m n) *
            V (z * H + h) n d) /
        ∑ n ∈ Finset.range (T * BN),
          Eexp (scoreMod (qkScore D (Q (z * H + h)) (K (z * H + h)) m n) z h m n) := by
  have hH : 0 < H := lt_of_le_of_lt (Nat.zero_le h) hh
  have hzd : (z * H + h) / H = z := by
    rw [mul_comm z H, Nat.mul_add_div hH, Nat.div_eq_of_lt hh, add_zero]
  have hzm : (z * H + h) % H = h := by
    rw [mul_comm z H, Nat.mul_add_mod, Nat.mod_eq_of_lt hh]
  have hmabs : m / BM * BM + m % BM = m := by
    rw [mul_comm (m / BM) BM, Nat.div_add_mod]
  have hterm : ∀ n,
      E (postModScore c LIN scoreMod D (Q (z * H + h)) (K (z * H + h)) z h m n) =
        Eexp (scoreMod (qkScore D (Q (z * H + h)) (K (z * H + h)) m n) z h m n) := by
    intro n
    cases LIN with
    | false =>
      simp only [postModScore, Bool.false_eq_true, if_false]
      exact hEc _
    | true =>
      simp only [postModScore, if_true]
      rw [hLIN rfl]
      exact hEc _
  simp only [fwdOut]
  rw [hzd, hzm, hmabs, rowOut_softmax E hE hpos BN T hBN hT]
  congr 1
  · exact Finset.sum_congr rfl fun n _ => by rw [hterm n]
  · exact Finset.sum_congr rfl fun n _ => by rw [hterm n]

/-- Witness for C1 at a concrete instance (trivial exponential `E = Eexp = 1`,
`c = 1`, identity modification, all-ones inputs, one 1×1 tile): the softmax of
a single key is `1`, and the kernel output evaluates to it. -/
theorem c1_forward_output_matches_reference_witness :
    fwdOut (fun _ : ℚ => 1) 1 true (fun sc _ _ _ _ => sc) 1 1 1 1 1
      (fun _ _ _ => 1) (fun _ _ _ => 1) (fun _ _ _ => 1) 0 0 0 0 = 1 := by
  rw [c1_forward_output_matches_reference (fun _ : ℚ => 1) (fun _ : ℚ => 1) 1
    (fun a b => by norm_num) (fun a => one_pos) (fun x => rfl) true
    (fun sc _ _ _ _ => sc) (fun _ x b h m n => rfl) 1 1 1 1 1 one_pos one_pos
    (fun _ _ _ => 1) (fun _ _ _ => 1) (fun _ _ _ => 1) 0 0 0 0 one_pos]
  norm_num

/-- The stored logsumexp of a row equals `L2(Σ_n E(post-modification score))`:
`m + L2(l) = L2(E(m) · l) = L2(Σ_n E(s n))`, in base-2 exponent space. -/
theorem fwdLSE_spec {α : Type} [LinearOrderedField α] (E L2 : α → α)
    (hE : ∀ a b, E (a + b) = E a * E b) (hpos : ∀ a, 0 < E a)
    (hL2mul : ∀ x y, 0 < x → 0 < y → L2 (x * y) = L2 x + L2 y)
    (hL2E : ∀ a, L2 (E a) = a)
    (c : α) (LIN : Bool) (scoreMod : α → ℕ → ℕ → ℕ → ℕ → α)
    (H D BM BN T : ℕ) (hBN : 0 < BN) (hT : 0 < T)
    (Q K : ℕ → ℕ → ℕ → α) (z h m : ℕ) (hh : h < H) :
    fwdLSE E L2 c LIN scoreMod H D BM BN T Q K z h m =
      some (L2 (∑ n ∈ Finset.range (T * BN),
        E (postModScore c LIN scoreMod D (Q (z * H + h)) (K (z * H + h)) z h m n))) := by
  have hH : 0 < H := lt_of_le_of_lt (Nat.zero_le h) hh
  have hzd : (z * H + h) / H = z := by
    rw [mul_comm z H, Nat.mul_add_div hH, Nat.div_eq_of_lt hh, add_zero]
  have hzm : (z * H + h) % H = h := by
    rw [mul_comm z H, Nat.mul_add_mod, Nat.mod_eq_of_lt hh]
  have hmabs : m / BM * BM + m % BM = m := by
    rw [mul_comm (m / BM) BM, Nat.div_add_mod]
  simp only [fwdLSE]
  rw [hzd, hzm, hmabs]
  obtain ⟨Mv, h1, h2, _⟩ := rowState_spec E hE BN hBN
    (fun n => postModScore c LIN scoreMod D (Q (z * H + h)) (K (z * H + h)) z h m n)
    (fun _ => 0) T hT
  rw [h1, h2, Option.map_some']
  have hlpos : 0 < ∑ n ∈ Finset.range (T * BN),
      E (postModScore c LIN scoreMod D (Q (z * H + h)) (K (z * H + h)) z h m n - Mv) :=
    Finset.sum_pos (fun n _ => hpos _)
      (Finset.nonempty_range_iff.mpr (by positivity))
  have hsum : ∑ n ∈ Finset.range (T * BN),
      E (postModScore c LIN scoreMod D (Q (z * H + h)) (K (z * H + h)) z h m n) =
      E Mv * ∑ n ∈ Finset.range (T * BN),
        E (postModScore c LIN scoreMod D (Q (z * H + h)) (K (z * H + h)) z h m n - Mv) := by
    rw [Finset.mul_sum]
    refine Finset.sum_congr rfl fun n _ => ?_
    rw [← hE]
    congr 1
    ring
  rw [hsum, hL2mul _ _ (hpos Mv) hlpos, hL2E]


/-- C2 (amended): in the concrete scenario Z=H=1, M=N=4, D=2 with identity
modification and `SCORE_MOD_IS_LINEAR` set (as the forward lowering always
does), the stored logsumexp of query row `m` is
`m_i + log2(l_i) = log₂(Σ_n 2^(1.44269504·score[m,n]))` — the base-2 logsumexp
of the scaled scores, i.e. `log2(e)` times the natural logsumexp up to the
rounding of the constant — not the natural-log sum of exponentials. -/
theorem c2_lse_is_base2_logsumexp (Q K : ℕ → ℕ → ℕ → ℝ) (m : ℕ) :
    fwdLSE (fun x : ℝ => (2:ℝ) ^ x) (Real.logb 2) 1.44269504 true
        (fun sc _ _ _ _ => sc) 1 2 4 4 1 Q K 0 0 m =
      some (Real.logb 2 (∑ n ∈ Finset.range 4,
        (2:ℝ) ^ ((1.44269504 : ℝ) * qkScore 2 (Q 0) (K 0) m n))) := by
  have h := fwdLSE_spec (fun x : ℝ => (2:ℝ) ^ x) (Real.logb 2)
    (fun a b => Real.rpow_add (by norm_num) a b)
    (fun a => Real.rpow_pos_of_pos (by norm_num) a)
    (fun x y hx hy => Real.logb_mul (ne_of_gt hx) (ne_of_gt hy))
    (fun a => Real.logb_rpow (by norm_num) (by norm_num))
    1.44269504 true (fun sc _ _ _ _ => sc) 1 2 4 4 1 (by norm_num) (by norm_num)
    Q K 0 0 m (by norm_num)
  rw [h]
  rfl

/-- C2 counterexample: with all-zero Q and K every raw score is `0`; the kernel
stores `lse = m_i + log2(l_i) = 0 + log2(4) = 2`, while the natural-log sum of
exponentials of the raw scores is `log 4 < 2`.  The stored logsumexp is the
base-2 logsumexp of the scaled scores, not `log(Σ_n exp(score))`. -/
theorem c2_stored_lse_is_not_natural_logsumexp :
    fwdLSE (fun x : ℝ => (2:ℝ) ^ x) (Real.logb 2) 1.44269504 true
        (fun sc _ _ _ _ => sc) 1 2 4 4 1 (fun _ _ _ => 0) (fun _ _ _ => 0) 0 0 0 ≠
      some (Real.log (∑ n ∈ Finset.range 4,
        Real.exp (qkScore 2 (fun _ _ => (0:ℝ)) (fun _ _ => (0:ℝ)) 0 n))) := by
  have h := fwdLSE_spec (fun x : ℝ => (2:ℝ) ^ x) (Real.logb 2)
    (fun a b => Real.rpow_add (by norm_num) a b)
    (fun a => Real.rpow_pos_of_pos (by norm_num) a)
    (fun x y hx hy => Real.logb_mul (ne_of_gt hx) (ne_of_gt hy))
    (fun a => Real.logb_rpow (by norm_num) (by norm_num))
    1.44269504 true (fun sc _ _ _ _ => sc) 1 2 4 4 1 (by norm_num) (by norm_num)
    (fun _ _ _ => 0) (fun _ _ _ => 0) 0 0 0 (by norm_num)
  rw [h]
  have hs : ∀ n, postModScore (1.44269504 : ℝ) true (fun sc _ _ _ _ => sc) 2
      ((fun _ _ _ => (0:ℝ)) (0 * 1 + 0)) ((fun _ _ _ => (0:ℝ)) (0 * 1 + 0)) 0 0 0 n = 0 := by
    intro n
    simp [postModScore, qkScore]
  have hsum : (∑ n ∈ Finset.range (1 * 4), (2:ℝ) ^
      (postModScore (1.44269504 : ℝ) true (fun sc _ _ _ _ => sc) 2
        ((fun _ _ _ => (0:ℝ)) (0 * 1 + 0)) ((fun _ _ _ => (0:ℝ)) (0 * 1 + 0)) 0 0 0 n)) = 4 := by
    rw [Finset.sum_congr rfl fun n _ => by rw [hs n, Real.rpow_zero]]
    norm_num
  have hq : ∀ n, qkScore 2 (fun _ _ => (0:ℝ)) (fun _ _ => (0:ℝ)) 0 n = 0 := by
    intro n
    simp [qkScore]
  have hrsum : (∑ n ∈ Finset.range 4,
      Real.exp (qkScore 2 (fun _ _ => (0:ℝ)) (fun _ _ => (0:ℝ)) 0 n)) = 4 := by
    rw [Finset.sum_congr rfl fun n _ => by rw [hq n, Real.exp_zero]]
    norm_num
  rw [hsum, hrsum]
  have hlogb : Real.logb 2 4 = 2 := by
    rw [show (4:ℝ) = 2 ^ (2:ℕ) by norm_num, Real.logb_pow,
      Real.logb_self_eq_one (by norm_num)]
    norm_num
  have hlog : Real.log 4 < 2 := by
    rw [Real.log_lt_iff_lt_exp (by norm_num)]
    have h2 : Real.exp 2 = Real.exp 1 * Real.exp 1 := by
      rw [← Real.exp_add]
      norm_num
    nlinarith [Real.exp_one_gt_d9]
  rw [hlogb]
  intro heq
  rw [Option.some_inj] at heq
  linarith [hlog, heq.symm.le]


/-- Adding `+0` to a finite value. -/
theorem fvAdd_fin_zero (c : ℚ) : fvAdd (FV.fin c) (FV.fin 0) = FV.fin c := by
  simp [fvAdd]

/-- `NaN` absorbs addition on the left. -/
theorem fvAdd_nan (x : FV) : fvAdd FV.nan x = FV.nan := by
  cases x <;> rfl

/-- `NaN` absorbs multiplication on the right. -/
theorem fvMul_nan (x : FV) : fvMul x FV.nan = FV.nan := by
  cases x <;> rfl

/-- Summing a list of `+0`s leaves the accumulator unchanged. -/
theorem foldl_fvAdd_zeros :
    ∀ (l : List FV) (c : ℚ), (∀ x ∈ l, x = FV.fin 0) →
      l.foldl fvAdd (FV.fin c) = FV.fin c := by
  intro l
  induction l with
  | nil => intro c _; rfl
  | cons x l ih =>
    intro c h
    rw [List.foldl_cons, h x (List.mem_cons_self x l), fvAdd_fin_zero]
    exact ih c fun y hy => h y (List.mem_cons_of_mem _ hy)

/-- `tl.sum` of an all-zero block is `+0`. -/
theorem fvSum_zeros (l : List FV) (h : ∀ x ∈ l, x = FV.fin 0) :
    fvSum l = FV.fin 0 :=
  foldl_fvAdd_zeros l 0 h

/-- Peeling one tile off the IEEE-semantics loop. -/
theorem rowStateFV_succ (E : ℚ → ℚ) (RGS : Bool) (BN T : ℕ) (s v : ℕ → FV) :
    rowStateFV E RGS BN (T + 1) s v =
      rowStepFV E RGS BN T s v (rowStateFV E RGS BN T s v) := by
  unfold rowStateFV
  rw [List.range_succ, List.foldl_append]
  rfl

/-- The running maximum over a fully masked (all `-inf`) score row stays `-inf`. -/
theorem foldl_fvMax_ninf (g : ℕ → FV) (hg : ∀ n, g n = FV.ninf) :
    ∀ l : List ℕ, l.foldl (fun a j => fvMax a (g j)) FV.ninf = FV.ninf := by
  intro l
  induction l with
  | nil => rfl
  | cons j l ih =>
    rw [List.foldl_cons, hg j]
    exact ih

/-- C5 (amended): in the forward kernel without `ROWS_GUARANTEED_SAFE`, the
rescale factor `alpha` and the weights `p` are zeroed for rows whose updated
running maximum `m_ij` is still `-inf`; a fully masked query row therefore
keeps `m_i = -inf`, `l_i = 0`, `acc = 0` through the whole loop (the
`exp2(-inf - -inf) = NaN` values are discarded) and stores logsumexp `-inf`
rather than NaN — but its stored output is `acc / l_i = 0/0 = NaN`, not `0`.
Without the gate (`ROWS_GUARANTEED_SAFE` asserted) the same row stores NaN for
the logsumexp as well.  (Shared engine for the fully-masked-row results.) -/
theorem maskedRowSemantics (E L : ℚ → ℚ) (BN T : ℕ) (s v : ℕ → FV)
    (hs : ∀ n, s n = FV.ninf) (hv : ∀ n, ∃ q, v n = FV.fin q) :
    (∀ t li acc, rowStepFV E false BN t s v (FV.ninf, FV.fin li, FV.fin acc) =
        (FV.ninf, FV.fin 0, FV.fin 0)) ∧
    rowStateFV E false BN T s v = (FV.ninf, FV.fin 0, FV.fin 0) ∧
    rowLSEFV E L false BN T s v = FV.ninf ∧
    rowOutFV E false BN T s v = FV.nan ∧
    (0 < T → rowLSEFV E L true BN T s v = FV.nan ∧
      rowOutFV E true BN T s v = FV.nan) := by
  have hmax : ∀ t : ℕ,
      (List.range BN).foldl (fun a j => fvMax a (s (t * BN + j))) FV.ninf = FV.ninf :=
    fun t => foldl_fvMax_ninf _ (fun n => hs (t * BN + n)) _
  have hv0 : ∀ n, fvMul (FV.fin 0) (v n) = FV.fin 0 := by
    intro n
    obtain ⟨q, hq⟩ := hv n
    rw [hq]
    simp [fvMul]
  have hstep : ∀ t li acc,
      rowStepFV E false BN t s v (FV.ninf, FV.fin li, FV.fin acc) =
        (FV.ninf, FV.fin 0, FV.fin 0) := by
    intro t li acc
    simp only [rowStepFV, hmax t, Bool.false_eq_true, if_false, reduceIte]
    have h1 : fvMul (FV.fin li) (FV.fin 0) = FV.fin 0 := by simp [fvMul]
    have h2 : fvMul (FV.fin acc) (FV.fin 0) = FV.fin 0 := by simp [fvMul]
    have h3 : fvSum ((List.range BN).map fun _ => FV.fin 0) = FV.fin 0 :=
      fvSum_zeros _ (by
        intro x hx
        obtain ⟨j, _, rfl⟩ := List.mem_map.mp hx
        rfl)
    have h4 : fvSum ((List.range BN).map fun j =>
        fvMul (FV.fin 0) (v (t * BN + j))) = FV.fin 0 :=
      fvSum_zeros _ (by
        intro x hx
        obtain ⟨j, _, rfl⟩ := List.mem_map.mp hx
        exact hv0 _)
    rw [h1, h2, h3, h4, fvAdd_fin_zero]
  have hstate : rowStateFV E false BN T s v = (FV.ninf, FV.fin 0, FV.fin 0) := by
    induction T with
    | zero => rfl
    | succ T ih =>
      rw [rowStateFV_succ, ih]
      exact hstep T 0 0
  have hstep1 : ∀ t li acc,
      rowStepFV E true BN t s v (FV.ninf, li, acc) = (FV.ninf, FV.nan, FV.nan) := by
    intro t li acc
    simp only [rowStepFV, hmax t]
    simp [fvSub, fvNeg, fvAdd, fvExp2, fvMul_nan, fvAdd_nan]
  have hst1 : ∀ T2, 0 < T2 → rowStateFV E true BN T2 s v = (FV.ninf, FV.nan, FV.nan) := by
    intro T2
    induction T2 with
    | zero => omega
    | succ T2 ih =>
      intro _
      rw [rowStateFV_succ]
      by_cases hT0 : T2 = 0
      · subst hT0
        exact hstep1 0 _ _
      · rw [ih (Nat.pos_of_ne_zero hT0)]
        exact hstep1 T2 _ _
  refine ⟨hstep, hstate, ?_, ?_, ?_⟩
  · rw [rowLSEFV, hstate]
    simp [fvLog2, fvAdd]
  · rw [rowOutFV, hstate]
    simp [fvDiv]
  · intro hT
    constructor
    · rw [rowLSEFV, hst1 T hT]
      simp [fvLog2, fvAdd]
    · rw [rowOutFV, hst1 T hT]
      simp [fvDiv]

/-- C5 (amended): in the forward kernel without `ROWS_GUARANTEED_SAFE`, the
rescale factor `alpha` and the unnormalized weights `p` are zeroed for rows
whose updated running maximum `m_ij` is still `-inf`; a fully masked query row
therefore keeps `m_i = -inf`, `l_i = 0`, `acc = 0` through the whole loop and
stores logsumexp `-inf` rather than NaN — but its stored output is
`acc / l_i = 0/0`, i.e. NaN, not `0`; with `ROWS_GUARANTEED_SAFE` asserted the
row stores NaN for the logsumexp as well. -/
theorem c5_masked_row_zeroing (E L : ℚ → ℚ) (BN T : ℕ) (s v : ℕ → FV)
    (hs : ∀ n, s n = FV.ninf) (hv : ∀ n, ∃ q, v n = FV.fin q) :
    (∀ t li acc, rowStepFV E false BN t s v (FV.ninf, FV.fin li, FV.fin acc) =
        (FV.ninf, FV.fin 0, FV.fin 0)) ∧
    rowStateFV E false BN T s v = (FV.ninf, FV.fin 0, FV.fin 0) ∧
    rowLSEFV E L false BN T s v = FV.ninf ∧
    rowOutFV E false BN T s v = FV.nan ∧
    (0 < T → rowLSEFV E L true BN T s v = FV.nan ∧
      rowOutFV E true BN T s v = FV.nan) :=
  maskedRowSemantics E L BN T s v hs hv

/-- Witness for C5 at a concrete instance (two 2-wide tiles, fully masked row,
finite values). -/
theorem c5_masked_row_zeroing_witness :
    rowStateFV (fun _ => 1) false 2 2 (fun _ => FV.ninf) (fun _ => FV.fin 3) =
      (FV.ninf, FV.fin 0, FV.fin 0) ∧
    rowLSEFV (fun _ => 1) (fun _ => 0) false 2 2 (fun _ => FV.ninf)
      (fun _ => FV.fin 3) = FV.ninf ∧
    rowOutFV (fun _ => 1) false 2 2 (fun _ => FV.ninf) (fun _ => FV.fin 3) =
      FV.nan := by
  have h := c5_masked_row_zeroing (fun _ => 1) (fun _ => 0) 2 2 (fun _ => FV.ninf)
    (fun _ => FV.fin 3) (fun _ => rfl) (fun _ => ⟨3, rfl⟩)
  exact ⟨h.2.1, h.2.2.1, h.2.2.2.1⟩

/-- C5 counterexample: a fully masked query row stores output `NaN` (`0/0`),
not `0` — while the logsumexp is indeed `-inf`. -/
theorem c5_masked_row_output_is_nan :
    rowOutFV (fun _ => 1) false 1 1 (fun _ => FV.ninf) (fun _ => FV.fin 1) =
        FV.nan ∧
    rowLSEFV (fun _ => 1) (fun _ => 0) false 1 1 (fun _ => FV.ninf)
        (fun _ => FV.fin 1) = FV.ninf ∧
    FV.nan ≠ FV.fin 0 := by
  have h := maskedRowSemantics (fun _ => 1) (fun _ => 0) 1 1 (fun _ => FV.ninf)
    (fun _ => FV.fin 1) (fun _ => rfl) (fun _ => ⟨1, rfl⟩)
  exact ⟨h.2.2.2.1, h.2.2.1, by decide⟩

end FlexAttn
